import Mathlib

/-!
# Cyber_Fuji_2020 : nested-quad generator, palette, quit key and program linking

A shallow embedding of `src/main.cpp`.

* Scalars.  The C++ code computes in `float`.  Every definition below is generic in the
  scalar type `F` and only asks for the operations the source text uses (`+`, `-`, `*`,
  unary minus, the conversion `(float)n` and decimal literals); `sinf` is a parameter.
  Structural theorems therefore hold for every interpretation of the scalar operations.
  Numerical theorems are stated in exact arithmetic (`ℝ` with `Real.sin`, or any ring).
* Buffers.  A `std::vector<Vertex>` is a `List`; every element access is bounds checked and an
  access outside the buffer makes the computation fail (`none`).
* Integers.  `size_t` indices are natural numbers (the `4 * squareCount` element buffer has to
  be addressable, so no index computation wraps); `int` is 32 bit, `size_t` is 64 bit, and
  the two conversions between them that the source performs are modelled with their
  wrap-around.
-/

namespace CyberFuji

/-! ## Data model -/

/-- Modelled from the spec: `Vector3` is declared in the header `Math.h`, which is not part of
the sources; the spec describes it as three floating-point components (x, y, z). -/
structure Vector3 (F : Type) where
  x : F
  y : F
  z : F
deriving DecidableEq

/-- The `struct Vertex` of main.cpp: a position and a colour. -/
structure Vertex (F : Type) where
  pos : Vector3 F
  col : Vector3 F
deriving DecidableEq

/-- The alias `using Vertices = std::vector<Vertex>`. -/
abbrev Vertices (F : Type) := List (Vertex F)

/-- Modelled from the spec: `Lerp` is declared in the header `Math.h`, which is not part of
the sources; the spec gives `Lerp(a, b, t) = a + (b - a) * t`, componentwise, not clamped. -/
def Lerp {F : Type} [Add F] [Sub F] [Mul F] (a b : Vector3 F) (t : F) : Vector3 F :=
  ⟨a.x + (b.x - a.x) * t, a.y + (b.y - a.y) * t, a.z + (b.z - a.z) * t⟩

/-! ## Machine integers -/

/-- Width of `size_t` in bits. -/
def SIZE_BITS : Nat := 64

/-- Width of `int` in bits. -/
def INT_BITS : Nat := 32

/-- The implicit conversion of an `int` to `size_t` (usual arithmetic conversions in
`index % colors.size()`): the value modulo `2 ^ 64`. -/
def size_t_of_int (index : Int) : Nat := (index % 2 ^ SIZE_BITS).toNat

/-- The conversion `static_cast<int>(i)` of a `size_t`: the value wrapped into
`[-2^31, 2^31)`. -/
def static_cast_int (i : Nat) : Int :=
  ((i : Int) + 2 ^ (INT_BITS - 1)) % 2 ^ INT_BITS - 2 ^ (INT_BITS - 1)

/-! ## Palette -/

/-- The table `colors` inside `RainbowColorGenerator`. -/
def colors {F : Type} [OfScientific F] : List (Vector3 F) :=
  [ ⟨1.0, 0.0, 0.0⟩,  -- Red
    ⟨1.0, 0.5, 0.0⟩,  -- Orange
    ⟨1.0, 1.0, 0.0⟩,  -- Yellow
    ⟨0.0, 1.0, 0.0⟩,  -- Green
    ⟨0.0, 0.0, 1.0⟩,  -- Blue
    ⟨0.3, 0.0, 0.5⟩,  -- Indigo
    ⟨0.5, 0.0, 0.5⟩ ] -- Violet

/-- The function `RainbowColorGenerator(int index)`: `colors[index % colors.size()]`. -/
def RainbowColorGenerator {F : Type} [OfScientific F] (index : Int) : Vector3 F :=
  (colors (F := F)).get
    ⟨size_t_of_int index % (colors (F := F)).length, Nat.mod_lt _ (Nat.succ_pos 6)⟩

/-! ## Buffer accesses and loops -/

/-- Reading `vs[k].pos`. -/
def getPos {F : Type} (vs : Vertices F) (k : Nat) : Option (Vector3 F) :=
  (vs[k]?).map fun v => v.pos

/-- The assignment `vs[k].pos = p`. -/
def setPos {F : Type} (vs : Vertices F) (k : Nat) (p : Vector3 F) : Option (Vertices F) :=
  (vs[k]?).map fun v => vs.set k { v with pos := p }

/-- The assignment `vs[k].col = c`. -/
def setCol {F : Type} (vs : Vertices F) (k : Nat) (c : Vector3 F) : Option (Vertices F) :=
  (vs[k]?).map fun v => vs.set k { v with col := c }

/-- The call `memcpy(dst.data(), src.data(), sizeof(Vertex) * n)`: the first `n` elements of
`src` overwrite the first `n` elements of `dst`; both buffers must hold `n` elements. -/
def memcpy {F : Type} (dst src : Vertices F) (n : Nat) : Option (Vertices F) :=
  if n ≤ dst.length ∧ n ≤ src.length then some (src.take n ++ dst.drop n) else none

/-- Runs `count` iterations of a loop body from index `i` on; a failing body aborts. -/
def forLoopFrom {σ : Type} (body : Nat → σ → Option σ) : Nat → Nat → σ → Option σ
  | 0, _, s => some s
  | count + 1, i, s => (body i s).bind (forLoopFrom body count (i + 1))

/-- The loop `for (size_t i = lo; i < hi; i++) body`: it runs `hi - lo` times (not at all
when `hi ≤ lo`). -/
def forLoop {σ : Type} (lo hi : Nat) (body : Nat → σ → Option σ) (s : σ) : Option σ :=
  forLoopFrom body (hi - lo) lo s

/-! ## The vertex generator of `main` -/

/-- The constant `vertexCount` of `main`. -/
def vertexCount : Nat := 4

/-- The value `interpolationValue = 0.1f * (1.0f + sinf((float)(i + j) * 0.1f))`. -/
def interpolationValue {F : Type} [Add F] [Mul F] [NatCast F] [OfScientific F]
    (sinf : F → F) (i j : Nat) : F :=
  0.1 * (1.0 + sinf (((i + j : Nat) : F) * 0.1))

/-- The buffer `square1` of `main` once the colouring loop has run (lines 156-172):
four elements, their positions assigned, then `square1[i].col = RainbowColorGenerator(0)`
for each `i < square1.size()`.  The buffer `square2` filled by the same loop is never read
afterwards and is left out.  `fresh` is the element a newly constructed vector holds. -/
def square1 {F : Type} [Neg F] [OfScientific F] (fresh : Vertex F) : Option (Vertices F) := do
  let square1 : Vertices F := List.replicate 4 fresh
  let square1 ← setPos square1 0 ⟨-1.0, 1.0, 0.0⟩
  let square1 ← setPos square1 1 ⟨1.0, 1.0, 0.0⟩
  let square1 ← setPos square1 2 ⟨1.0, -1.0, 0.0⟩
  let square1 ← setPos square1 3 ⟨-1.0, -1.0, 0.0⟩
  forLoop 0 square1.length (fun i square1 => setCol square1 i (RainbowColorGenerator 0)) square1

/-- The body of the inner loop of the vertex-generation loop (lines 198-208). -/
def generateVertex {F : Type} [Add F] [Sub F] [Mul F] [NatCast F] [OfScientific F]
    (sinf : F → F) (i j : Nat) (vertices : Vertices F) : Option (Vertices F) := do
  let squareStartPoint ← getPos vertices ((i - 1) * vertexCount + j)
  let squareEndPoint ← getPos vertices ((i - 1) * vertexCount + (j + 1) % vertexCount)
  let interpolationValue := interpolationValue sinf i j
  let interpolatedPoint := Lerp squareStartPoint squareEndPoint interpolationValue
  let vertices ← setPos vertices (i * vertexCount + j) interpolatedPoint
  setCol vertices (i * vertexCount + j) (RainbowColorGenerator (static_cast_int i))

/-- The vertex sequence `vertices` built by `main` (lines 174-210) for a given value of
`squareCount`: allocation of `squareCount * vertexCount` elements, the `memcpy` of `square1`
into its front, then the vertex-generation loop. -/
def generateVertices {F : Type} [Add F] [Sub F] [Mul F] [Neg F] [NatCast F] [OfScientific F]
    (sinf : F → F) (fresh : Vertex F) (squareCount : Nat) : Option (Vertices F) := do
  let square1 ← square1 fresh
  let vertices : Vertices F := List.replicate (squareCount * vertexCount) fresh
  let vertices ← memcpy vertices square1 4
  forLoop 1 squareCount
    (fun i vertices => forLoop 0 vertexCount (fun j vertices => generateVertex sinf i j vertices)
      vertices)
    vertices

/-- The seed quad: the corners of the square `[-1, 1] x [-1, 1]` in the order of `main`,
each coloured `RainbowColorGenerator(0)`. -/
def seedQuad {F : Type} [Neg F] [OfScientific F] : Vertices F :=
  [ ⟨⟨-1.0, 1.0, 0.0⟩, RainbowColorGenerator 0⟩,
    ⟨⟨1.0, 1.0, 0.0⟩, RainbowColorGenerator 0⟩,
    ⟨⟨1.0, -1.0, 0.0⟩, RainbowColorGenerator 0⟩,
    ⟨⟨-1.0, -1.0, 0.0⟩, RainbowColorGenerator 0⟩ ]

/-- Quad `k` of the buffer `vs` is derived from quad `k - 1` of the buffer `vs0`: slot `j`
holds the interpolation between corners `j` and `(j + 1) mod 4` of the previous quad, with
the fraction and the colour the generation loop uses. -/
def QuadDerived {F : Type} [Add F] [Sub F] [Mul F] [NatCast F] [OfScientific F]
    (sinf : F → F) (vs0 vs : Vertices F) (k j : Nat) : Prop :=
  ∃ s e : Vertex F, vs0[4 * (k - 1) + j]? = some s ∧ vs0[4 * (k - 1) + (j + 1) % 4]? = some e ∧
    vs[4 * k + j]? = some
      ⟨Lerp s.pos e.pos (interpolationValue sinf k j), RainbowColorGenerator (static_cast_int k)⟩

/-- Loop invariant of the outer generation loop before iteration `i`: the buffer has `4 * N`
elements, starts with the seed quad, and every quad `k` with `1 ≤ k < i` is derived from its
predecessor. -/
def GeneratedUpTo {F : Type} [Add F] [Sub F] [Mul F] [Neg F] [NatCast F] [OfScientific F]
    (sinf : F → F) (N i : Nat) (vs : Vertices F) : Prop :=
  vs.length = 4 * N ∧ (∀ j, j < 4 → vs[j]? = (seedQuad (F := F))[j]?) ∧
    ∀ k j, 1 ≤ k → k < i → j < 4 → QuadDerived sinf vs vs k j

/-- Loop invariant of the inner loop of iteration `i` before slot `j`, `vs0` being the buffer
the iteration started from: nothing below `4 * i` has changed and the slots below `j` of quad
`i` are derived from quad `i - 1`. -/
def QuadUpTo {F : Type} [Add F] [Sub F] [Mul F] [NatCast F] [OfScientific F]
    (sinf : F → F) (vs0 : Vertices F) (i j : Nat) (vs : Vertices F) : Prop :=
  vs.length = vs0.length ∧ (∀ k, k < 4 * i → vs[k]? = vs0[k]?) ∧
    ∀ m, m < j → m < 4 → QuadDerived sinf vs0 vs i m

/-- A point of the seed square: both coordinates in `[-1, 1]` and `z = 0`. -/
def InSeedSquare (p : Vector3 ℝ) : Prop :=
  (-1 ≤ p.x ∧ p.x ≤ 1) ∧ (-1 ≤ p.y ∧ p.y ≤ 1) ∧ p.z = 0

/-- A rational stand-in for `sinf`, the cubic Taylor polynomial, for evaluating the generator
on concrete inputs. -/
def sinTaylor (x : ℚ) : ℚ := x - x * x * x / 6

/-- A vertex with all components zero. -/
def zeroVertex : Vertex ℚ := ⟨⟨0, 0, 0⟩, ⟨0, 0, 0⟩⟩

/-! ## The key callback -/

set_option linter.unusedVariables false

/-- The constant `GLFW_KEY_ESCAPE` of the GLFW header. -/
def GLFW_KEY_ESCAPE : Int := 256

/-- The constant `GLFW_RELEASE` of the GLFW header. -/
def GLFW_RELEASE : Int := 0

/-- The callback `OnKey(window, key, scancode, action, mods)`.  The only part of the window
it touches is the should-close flag, which is the state here: `OnKey` calls
`glfwSetWindowShouldClose(window, true)` when the guard holds and does nothing otherwise. -/
def OnKey (shouldClose : Bool) (key scancode action mods : Int) : Bool :=
  if key = GLFW_KEY_ESCAPE ∧ action = GLFW_RELEASE then true else shouldClose

/-- One key event as GLFW delivers it: key, scancode, action, mods. -/
structure KeyEvent where
  key : Int
  scancode : Int
  action : Int
  mods : Int

/-- The should-close flag after the callback has handled a sequence of key events. -/
def handleKeys (shouldClose : Bool) (events : List KeyEvent) : Bool :=
  events.foldl (fun flag e => OnKey flag e.key e.scancode e.action e.mods) shouldClose

/-! ## Program linking -/

/-- The constant `GL_NONE` of the OpenGL header. -/
def GL_NONE : Nat := 0

/-- The behaviour of the OpenGL driver that `CreateProgram` observes: the handle
`glCreateProgram()` returns, the `GL_LINK_STATUS` read back for a program once the two shaders
are attached and it is linked, and the text `glGetProgramInfoLog` leaves in the buffer when
queried for a handle. -/
structure GLDriver where
  glCreateProgram : Nat
  linkStatus : Nat → Nat → Nat → Bool
  glGetProgramInfoLog : Nat → String

/-- The function `CreateProgram(vs, fs)`: the returned handle and the text written to
`std::cout`. -/
def CreateProgram (gl : GLDriver) (vs fs : Nat) : Nat × String :=
  let shaderProgram := gl.glCreateProgram
  let success := gl.linkStatus shaderProgram vs fs
  if !success then
    let shaderProgram := GL_NONE
    let infoLog := gl.glGetProgramInfoLog shaderProgram
    (shaderProgram, "ERROR::SHADER::PROGRAM::LINKING_FAILED\n" ++ infoLog ++ "\n")
  else
    (shaderProgram, "")

/-- A driver on which linking fails: `glCreateProgram` returns handle 1, the link status is
false, and the info log of program 1 holds the message of the linker while handle 0 has none. -/
def failingDriver : GLDriver where
  glCreateProgram := 1
  linkStatus := fun _ _ _ => false
  glGetProgramInfoLog := fun h => if h = 1 then "error: vertex shader missing" else ""

/-! ## Theorems -/

/-! ### Palette -/

/-- The table has seven entries. -/
theorem colors_length {F : Type} [OfScientific F] : (colors (F := F)).length = 7 := rfl

/-- The lookup of `RainbowColorGenerator` stays inside the table for every `int`. -/
theorem RainbowColorGenerator_index_lt {F : Type} [OfScientific F] (index : Int) :
    size_t_of_int index % (colors (F := F)).length < (colors (F := F)).length :=
  Nat.mod_lt _ (Nat.succ_pos 6)

/-- For a non-negative `int` the conversion to `size_t` keeps the value. -/
theorem size_t_of_int_of_nonneg (index : Int) (h0 : 0 ≤ index) (h1 : index < 2 ^ 31) :
    size_t_of_int index = index.toNat := by
  unfold size_t_of_int SIZE_BITS
  rw [Int.emod_eq_of_lt h0 (by omega)]

/-- Below `2 ^ 31` the conversion `static_cast<int>` keeps the value. -/
theorem static_cast_int_of_lt (i : Nat) (h : i < 2 ^ 31) :
    static_cast_int i = ((i : Nat) : Int) := by
  unfold static_cast_int INT_BITS
  omega

/-- For a negative `int` the conversion to `size_t` adds `2 ^ 64`. -/
theorem size_t_of_int_of_neg (index : Int) (h0 : index < 0) (h1 : -2 ^ 31 ≤ index) :
    size_t_of_int index = (index + 2 ^ 64).toNat := by
  unfold size_t_of_int SIZE_BITS
  congr 1
  rw [← Int.add_emod_self, Int.emod_eq_of_lt (by omega) (by omega)]

/-- For a non-negative `int` index the palette entry is the one at `index mod 7`. -/
theorem RainbowColorGenerator_of_nonneg {F : Type} [OfScientific F] (index : Int)
    (h0 : 0 ≤ index) (h1 : index < 2 ^ 31) :
    (colors (F := F))[(index % 7).toNat]? = some (RainbowColorGenerator index) := by
  have e : (index % 7).toNat = size_t_of_int index % (colors (F := F)).length := by
    rw [size_t_of_int_of_nonneg index h0 h1, colors_length]
    omega
  rw [e]
  unfold RainbowColorGenerator
  rw [List.get_eq_getElem]
  exact List.getElem?_eq_getElem _

/-- For a non-negative `int` index the palette has period 7. -/
theorem RainbowColorGenerator_period_of_nonneg {F : Type} [OfScientific F] (index : Int)
    (h0 : 0 ≤ index) (h1 : index + 7 < 2 ^ 31) :
    RainbowColorGenerator (F := F) index = RainbowColorGenerator (index + 7) := by
  have h := RainbowColorGenerator_of_nonneg (F := F) index h0 (by omega)
  have h7 := RainbowColorGenerator_of_nonneg (F := F) (index + 7) (by omega) h1
  have e : ((index + 7) % 7).toNat = (index % 7).toNat := by omega
  rw [e, h] at h7
  exact Option.some.inj h7

/-- For a negative `int` index the palette entry is the one at `(index + 2) mod 7`, since
`2 ^ 64 mod 7 = 2`. -/
theorem RainbowColorGenerator_of_neg {F : Type} [OfScientific F] (index : Int)
    (h0 : index < 0) (h1 : -2 ^ 31 ≤ index) :
    (colors (F := F))[((index + 2) % 7).toNat]? = some (RainbowColorGenerator index) := by
  have e : ((index + 2) % 7).toNat = size_t_of_int index % (colors (F := F)).length := by
    rw [size_t_of_int_of_neg index h0 h1, colors_length]
    omega
  rw [e]
  unfold RainbowColorGenerator
  rw [List.get_eq_getElem]
  exact List.getElem?_eq_getElem _

/-- For an `int` index with `index + 7` still negative the palette has period 7. -/
theorem RainbowColorGenerator_period_of_neg {F : Type} [OfScientific F] (index : Int)
    (h0 : index + 7 < 0) (h1 : -2 ^ 31 ≤ index) :
    RainbowColorGenerator (F := F) index = RainbowColorGenerator (index + 7) := by
  have h := RainbowColorGenerator_of_neg (F := F) index (by omega) h1
  have h7 := RainbowColorGenerator_of_neg (F := F) (index + 7) h0 (by omega)
  have e : ((index + 7 + 2) % 7).toNat = ((index + 2) % 7).toNat := by omega
  rw [e, h] at h7
  exact Option.some.inj h7

/-- C4. At `index = -1` the palette does not have period 7: `RainbowColorGenerator(-1)` is
orange, because `-1` becomes `2^64 - 1` before the remainder is taken, while
`RainbowColorGenerator(-1 + 7)` is violet. -/
theorem RainbowColorGenerator_period_fails_at_neg_one :
    RainbowColorGenerator (F := ℚ) (-1) = ⟨1.0, 0.5, 0.0⟩ ∧
      RainbowColorGenerator (F := ℚ) (-1 + 7) = ⟨0.5, 0.0, 0.5⟩ ∧
      RainbowColorGenerator (F := ℚ) (-1) ≠ RainbowColorGenerator (F := ℚ) (-1 + 7) := by
  have h1 : RainbowColorGenerator (F := ℚ) (-1) = ⟨1.0, 0.5, 0.0⟩ := rfl
  have h2 : RainbowColorGenerator (F := ℚ) (-1 + 7) = ⟨0.5, 0.0, 0.5⟩ := rfl
  refine ⟨h1, h2, ?_⟩
  rw [h1, h2]
  intro h
  have hx := congrArg Vector3.x h
  norm_num at hx

/-- C5. At `index = -1` the palette entry returned is not the one at the mathematical
`index mod 7 = 6`: the code looks up entry `(2^64 - 1) mod 7 = 1` (orange) where entry 6 is
violet; the lookup itself stays inside the seven entries. -/
theorem RainbowColorGenerator_neg_one_not_mod :
    ((-1 : Int) % 7).toNat = 6 ∧
      size_t_of_int (-1) % (colors (F := ℚ)).length = 1 ∧
      (colors (F := ℚ))[((-1 : Int) % 7).toNat]? = some ⟨0.5, 0.0, 0.5⟩ ∧
      RainbowColorGenerator (F := ℚ) (-1) = ⟨1.0, 0.5, 0.0⟩ ∧
      (colors (F := ℚ))[((-1 : Int) % 7).toNat]? ≠ some (RainbowColorGenerator (-1)) := by
  have h1 : RainbowColorGenerator (F := ℚ) (-1) = ⟨1.0, 0.5, 0.0⟩ := rfl
  have h2 : (colors (F := ℚ))[((-1 : Int) % 7).toNat]? = some ⟨0.5, 0.0, 0.5⟩ := rfl
  refine ⟨by decide, by decide, h2, h1, ?_⟩
  rw [h1, h2]
  intro h
  have hx := congrArg Vector3.x (Option.some.inj h)
  norm_num at hx

/-! ### Loops and buffer accesses -/

/-- Hoare rule for `forLoopFrom`: an invariant that every iteration re-establishes (and under
which no iteration fails) holds after the loop, and the loop returns. -/
theorem forLoopFrom_invariant {σ : Type} (body : Nat → σ → Option σ) (P : Nat → σ → Prop) :
    ∀ (count i : Nat) (s : σ), P i s →
      (∀ k t, i ≤ k → k < i + count → P k t → ∃ t', body k t = some t' ∧ P (k + 1) t') →
      ∃ s', forLoopFrom body count i s = some s' ∧ P (i + count) s' := by
  intro count
  induction count with
  | zero => intro i s hP _; exact ⟨s, rfl, hP⟩
  | succ n ih =>
    intro i s hP hstep
    obtain ⟨t, ht, hPt⟩ := hstep i s (Nat.le_refl i) (by omega) hP
    obtain ⟨s', hs', hP'⟩ := ih (i + 1) t hPt
      (fun k u hk1 hk2 hPu => hstep k u (by omega) (by omega) hPu)
    refine ⟨s', ?_, ?_⟩
    · simp only [forLoopFrom, ht, Option.some_bind, Option.bind_eq_bind]
      exact hs'
    · have e : i + (n + 1) = i + 1 + n := by omega
      rw [e]; exact hP'

/-- Writing position and colour of an existing slot amounts to replacing the vertex. -/
theorem setPos_setCol {F : Type} (vs : Vertices F) (k : Nat) (p c : Vector3 F)
    (hk : k < vs.length) :
    (setPos vs k p).bind (fun ws => setCol ws k c) = some (vs.set k ⟨p, c⟩) := by
  unfold setPos setCol
  rw [List.getElem?_eq_getElem hk]
  simp only [Option.map_some', Option.some_bind]
  rw [List.getElem?_set_self hk]
  simp only [Option.map_some', List.set_set]

/-- `square1` is the seed quad, whatever a fresh vector holds. -/
theorem square1_eq {F : Type} [Neg F] [OfScientific F] (fresh : Vertex F) :
    square1 fresh = some seedQuad := rfl

/-- One execution of the inner loop body replaces slot `4 * i + j` by the vertex derived from
corners `j` and `(j + 1) mod 4` of quad `i - 1`. -/
theorem generateVertex_eq {F : Type} [Add F] [Sub F] [Mul F] [NatCast F] [OfScientific F]
    (sinf : F → F) (i j : Nat) (vs : Vertices F)
    (hi : 1 ≤ i) (hj : j < 4) (hlen : 4 * i + j < vs.length) :
    ∃ s e : Vertex F, vs[4 * (i - 1) + j]? = some s ∧ vs[4 * (i - 1) + (j + 1) % 4]? = some e ∧
      generateVertex sinf i j vs = some (vs.set (4 * i + j)
        ⟨Lerp s.pos e.pos (interpolationValue sinf i j),
          RainbowColorGenerator (static_cast_int i)⟩) := by
  have hs : 4 * (i - 1) + j < vs.length := by omega
  have he : 4 * (i - 1) + (j + 1) % 4 < vs.length := by omega
  refine ⟨vs[4 * (i - 1) + j], vs[4 * (i - 1) + (j + 1) % 4],
    List.getElem?_eq_getElem hs, List.getElem?_eq_getElem he, ?_⟩
  have e1 : (i - 1) * vertexCount + j = 4 * (i - 1) + j := by unfold vertexCount; omega
  have e2 : (i - 1) * vertexCount + (j + 1) % vertexCount = 4 * (i - 1) + (j + 1) % 4 := by
    unfold vertexCount; omega
  have e3 : i * vertexCount + j = 4 * i + j := by unfold vertexCount; omega
  unfold generateVertex getPos
  rw [e1, e2, e3, List.getElem?_eq_getElem hs, List.getElem?_eq_getElem he]
  simp only [Option.map_some', Option.some_bind, Option.bind_eq_bind]
  exact setPos_setCol vs (4 * i + j) _ _ hlen

/-- The inner loop body re-establishes the inner invariant. -/
theorem generateVertex_invariant {F : Type} [Add F] [Sub F] [Mul F] [NatCast F]
    [OfScientific F] (sinf : F → F) (vs0 : Vertices F) (i j : Nat) (vs : Vertices F)
    (hi : 1 ≤ i) (hj : j < 4) (hlen : 4 * i + 4 ≤ vs0.length)
    (hQ : QuadUpTo sinf vs0 i j vs) :
    ∃ vs', generateVertex sinf i j vs = some vs' ∧ QuadUpTo sinf vs0 i (j + 1) vs' := by
  obtain ⟨hl, hlow, hdone⟩ := hQ
  obtain ⟨s, e, hs, he, hgen⟩ := generateVertex_eq sinf i j vs hi hj (by omega)
  refine ⟨_, hgen, ?_, ?_, ?_⟩
  · rw [List.length_set]; exact hl
  · intro k hk
    rw [List.getElem?_set_ne (by omega)]
    exact hlow k hk
  · intro m hm hm4
    by_cases hmj : m = j
    · subst hmj
      refine ⟨s, e, ?_, ?_, ?_⟩
      · rw [← hlow _ (by omega)]; exact hs
      · rw [← hlow _ (by omega)]; exact he
      · exact List.getElem?_set_self (by omega)
    · obtain ⟨s', e', hs', he', hv⟩ := hdone m (by omega) hm4
      refine ⟨s', e', hs', he', ?_⟩
      rw [List.getElem?_set_ne (by omega)]
      exact hv

/-- One iteration of the outer loop (the whole inner loop) re-establishes the outer
invariant. -/
theorem generateQuad_invariant {F : Type} [Add F] [Sub F] [Mul F] [Neg F] [NatCast F]
    [OfScientific F] (sinf : F → F) (N i : Nat) (vs : Vertices F)
    (hi : 1 ≤ i) (hiN : i < N) (hG : GeneratedUpTo sinf N i vs) :
    ∃ vs', forLoop 0 vertexCount (fun j ws => generateVertex sinf i j ws) vs = some vs' ∧
      GeneratedUpTo sinf N (i + 1) vs' := by
  obtain ⟨hl, hseed, hquads⟩ := hG
  have hstart : QuadUpTo sinf vs i 0 vs :=
    ⟨rfl, fun _ _ => rfl, fun m hm _ => absurd hm (Nat.not_lt_zero m)⟩
  obtain ⟨vs', hrun, hl', hlow, hnew⟩ :=
    forLoopFrom_invariant (fun j ws => generateVertex sinf i j ws)
      (fun j ws => QuadUpTo sinf vs i j ws) 4 0 vs hstart
      (fun j ws _ hj hQ => generateVertex_invariant sinf vs i j ws hi (by omega) (by omega) hQ)
  refine ⟨vs', hrun, ?_, ?_, ?_⟩
  · rw [hl', hl]
  · intro j hj
    rw [hlow j (by omega)]
    exact hseed j hj
  · intro k j hk1 hk hj
    by_cases hki : k = i
    · subst hki
      obtain ⟨s, e, hs, he, hv⟩ := hnew j (by omega) hj
      refine ⟨s, e, ?_, ?_, hv⟩
      · rw [hlow _ (by omega)]; exact hs
      · rw [hlow _ (by omega)]; exact he
    · obtain ⟨s, e, hs, he, hv⟩ := hquads k j hk1 (by omega) hj
      refine ⟨s, e, ?_, ?_, ?_⟩
      · rw [hlow _ (by omega)]; exact hs
      · rw [hlow _ (by omega)]; exact he
      · rw [hlow _ (by omega)]; exact hv

/-- The copy of `square1` into a buffer of `4 * N` fresh elements, `N ≥ 1`. -/
theorem memcpy_seed {F : Type} [Neg F] [OfScientific F] (fresh : Vertex F) (N : Nat)
    (hN : 1 ≤ N) :
    memcpy (List.replicate (N * vertexCount) fresh) seedQuad 4
      = some (seedQuad ++ List.replicate (4 * N - 4) fresh) := by
  have hlen : (seedQuad (F := F)).length = 4 := rfl
  have htake : (seedQuad (F := F)).take 4 = seedQuad := rfl
  unfold memcpy
  rw [if_pos]
  · rw [htake, List.drop_replicate]
    unfold vertexCount
    rw [Nat.mul_comm N 4]
  · rw [List.length_replicate, hlen]
    unfold vertexCount
    omega

/-- For every `N ≥ 1` the generator returns, and the buffer it returns has `4 * N` elements,
starts with the seed quad, and has every later quad derived from its predecessor. -/
theorem generateVertices_generated {F : Type} [Add F] [Sub F] [Mul F] [Neg F] [NatCast F]
    [OfScientific F] (sinf : F → F) (fresh : Vertex F) (N : Nat) (hN : 1 ≤ N) :
    ∃ vs, generateVertices sinf fresh N = some vs ∧ GeneratedUpTo sinf N N vs := by
  have hlen : (seedQuad (F := F)).length = 4 := rfl
  have hstart : GeneratedUpTo sinf N 1 (seedQuad ++ List.replicate (4 * N - 4) fresh) := by
    refine ⟨?_, ?_, ?_⟩
    · rw [List.length_append, List.length_replicate, hlen]; omega
    · intro j hj
      exact List.getElem?_append_left (by rw [hlen]; exact hj)
    · intro k j hk1 hk
      omega
  obtain ⟨vs, hrun, hG⟩ :=
    forLoopFrom_invariant
      (fun i ws => forLoop 0 vertexCount (fun j us => generateVertex sinf i j us) ws)
      (fun i ws => GeneratedUpTo sinf N i ws) (N - 1) 1 _ hstart
      (fun i ws hi1 hiN hG => generateQuad_invariant sinf N i ws hi1 (by omega) hG)
  have e : 1 + (N - 1) = N := by omega
  rw [e] at hG
  refine ⟨vs, ?_, hG⟩
  unfold generateVertices
  rw [square1_eq]
  simp only [Option.some_bind, Option.bind_eq_bind, memcpy_seed fresh N hN]
  exact hrun

/-- The first four elements of a generated buffer are the seed quad. -/
theorem GeneratedUpTo.take_four {F : Type} [Add F] [Sub F] [Mul F] [Neg F] [NatCast F]
    [OfScientific F] {sinf : F → F} {N i : Nat} {vs : Vertices F}
    (hG : GeneratedUpTo sinf N i vs) : vs.take 4 = seedQuad := by
  obtain ⟨_, hseed, _⟩ := hG
  apply List.ext_getElem?
  intro n
  rw [List.getElem?_take]
  by_cases hn : n < 4
  · rw [if_pos hn]; exact hseed n hn
  · rw [if_neg hn]
    have hlen : (seedQuad (F := F)).length = 4 := rfl
    exact (List.getElem?_eq_none (by rw [hlen]; omega)).symm

/-! ### The generated sequence -/

/-- Over the reals the interpolation fraction has the closed form of the specification. -/
theorem interpolationValue_real (i j : Nat) :
    interpolationValue Real.sin i j = 0.1 * (1 + Real.sin (0.1 * ((i : ℝ) + (j : ℝ)))) := by
  unfold interpolationValue
  rw [Nat.cast_add, mul_comm ((i : ℝ) + (j : ℝ)) 0.1]
  norm_num

/-- C1. For every quad count `N`, quad index `1 ≤ i < N` and slot `j < 4`, the generator
returns a buffer whose element `4 * i + j` has position `Lerp(start, end, t)`, where `start`
and `end` are the positions of elements `4 * (i - 1) + j` and `4 * (i - 1) + (j + 1) mod 4`
and `t = interpolationValue i j`, which over the reals is `0.1 * (1 + sin (0.1 * (i + j)))`;
and whenever `i < 2 ^ 31`, so that `i` is a value of `int`, the colour of the element is
`RainbowColorGenerator(i)`, the palette entry at `i mod 7`.  Over the reals, for `N = 2`,
element 4 is `Lerp(seed[0], seed[1], t)` with `t = 0.1 * (1 + sin (0.1 * 1))`, which is
`(-1 + 2 t, 1, 0)`, coloured `RainbowColorGenerator(1)`. -/
theorem generateVertices_recurrence {F : Type} [Add F] [Sub F] [Mul F] [Neg F] [NatCast F]
    [OfScientific F] (sinf : F → F) (fresh : Vertex F) (N i j : Nat)
    (hi : 1 ≤ i) (hiN : i < N) (hj : j < 4) :
    (∃ vs s e v, generateVertices sinf fresh N = some vs ∧
        vs[4 * (i - 1) + j]? = some s ∧ vs[4 * (i - 1) + (j + 1) % 4]? = some e ∧
        vs[4 * i + j]? = some v ∧
        v.pos = Lerp s.pos e.pos (interpolationValue sinf i j) ∧
        (i < 2 ^ 31 →
          v.col = RainbowColorGenerator ((i : Nat) : Int) ∧
            (colors (F := F))[i % 7]? = some v.col)) ∧
      interpolationValue Real.sin i j = 0.1 * (1 + Real.sin (0.1 * ((i : ℝ) + (j : ℝ)))) ∧
      (∀ freshR : Vertex ℝ, ∃ vs v, generateVertices Real.sin freshR 2 = some vs ∧
        vs[4]? = some v ∧
        v.pos = Lerp (F := ℝ) ⟨-1.0, 1.0, 0.0⟩ ⟨1.0, 1.0, 0.0⟩
          (0.1 * (1 + Real.sin (0.1 * 1))) ∧
        v.pos = ⟨-1 + 2 * (0.1 * (1 + Real.sin (0.1 * 1))), 1, 0⟩ ∧
        v.col = RainbowColorGenerator (F := ℝ) 1) := by
  refine ⟨?_, interpolationValue_real i j, ?_⟩
  · obtain ⟨vs, hrun, _, _, hquads⟩ := generateVertices_generated sinf fresh N (by omega)
    obtain ⟨s, e, hs, he, hv⟩ := hquads i j hi hiN hj
    refine ⟨vs, s, e,
      ⟨Lerp s.pos e.pos (interpolationValue sinf i j), RainbowColorGenerator (static_cast_int i)⟩,
      hrun, hs, he, hv, rfl, ?_⟩
    intro h
    have hcast : static_cast_int i = ((i : Nat) : Int) := static_cast_int_of_lt i h
    have hcol := RainbowColorGenerator_of_nonneg (F := F) ((i : Nat) : Int) (by omega) (by omega)
    have hmod : (((i : Nat) : Int) % 7).toNat = i % 7 := by omega
    rw [hmod] at hcol
    have hc : RainbowColorGenerator (F := F) (static_cast_int i)
        = RainbowColorGenerator ((i : Nat) : Int) := by rw [hcast]
    rw [← hc] at hcol
    constructor
    · dsimp only
      exact hc
    · dsimp only
      exact hcol
  · intro freshR
    obtain ⟨vs, hrun, _, hseed, hquads⟩ := generateVertices_generated Real.sin freshR 2 (by omega)
    obtain ⟨s, e, hs, he, hv⟩ := hquads 1 0 (by omega) (by omega) (by omega)
    have hs0 : vs[0]? = some s := hs
    have he1 : vs[1]? = some e := he
    rw [hseed 0 (by omega)] at hs0
    rw [hseed 1 (by omega)] at he1
    have hs' : s = ⟨⟨-1.0, 1.0, 0.0⟩, RainbowColorGenerator 0⟩ := (Option.some.inj hs0).symm
    have he' : e = ⟨⟨1.0, 1.0, 0.0⟩, RainbowColorGenerator 0⟩ := (Option.some.inj he1).symm
    have ht : interpolationValue Real.sin 1 0 = 0.1 * (1 + Real.sin (0.1 * 1)) := by
      unfold interpolationValue
      norm_num
    refine ⟨vs, _, hrun, hv, ?_, ?_, rfl⟩
    · rw [hs', he', ht]
    · rw [hs', he', ht]
      simp only [Lerp, Vector3.mk.injEq]
      refine ⟨?_, ?_, ?_⟩
      · norm_num
      · norm_num
      · norm_num

/-- Witness for C1: quad count 2, quad 1, slot 0, rational scalars. -/
theorem generateVertices_recurrence_witness :
    1 ≤ 1 ∧ 1 < 2 ∧ 0 < 4 ∧
      ∃ vs s e v, generateVertices sinTaylor zeroVertex 2 = some vs ∧
        vs[4 * (1 - 1) + 0]? = some s ∧ vs[4 * (1 - 1) + (0 + 1) % 4]? = some e ∧
        vs[4 * 1 + 0]? = some v ∧
        v.pos = Lerp s.pos e.pos (interpolationValue sinTaylor 1 0) ∧
        v.col = RainbowColorGenerator (F := ℚ) ((1 : Nat) : Int) ∧
        (colors (F := ℚ))[1 % 7]? = some v.col := by
  obtain ⟨vs, s, e, v, hrun, hs, he, hv, hpos, hcol⟩ :=
    (generateVertices_recurrence sinTaylor zeroVertex 2 1 0
      (by decide) (by decide) (by decide)).1
  exact ⟨by decide, by decide, by decide, vs, s, e, v, hrun, hs, he, hv, hpos,
    hcol (by norm_num)⟩

/-- Counterexample to C1 as stated: with `squareCount = 2 ^ 31 + 1` the generator returns a
buffer in which element `4 * 2 ^ 31` of quad `i = 2 ^ 31` is red, because
`static_cast<int>(i)` is `-2 ^ 31`, while `RainbowColorGenerator` at the integer `2 ^ 31`, the
palette entry at `2 ^ 31 mod 7 = 2`, is yellow. -/
theorem generateVertices_colour_beyond_int :
    1 ≤ 2 ^ 31 ∧ 2 ^ 31 < 2 ^ 31 + 1 ∧
      ∃ vs v, generateVertices sinTaylor zeroVertex (2 ^ 31 + 1) = some vs ∧
        vs[4 * 2 ^ 31 + 0]? = some v ∧
        v.col = (⟨1.0, 0.0, 0.0⟩ : Vector3 ℚ) ∧
        RainbowColorGenerator (F := ℚ) (((2 ^ 31 : Nat) : Int)) = ⟨1.0, 1.0, 0.0⟩ ∧
        (colors (F := ℚ))[2 ^ 31 % 7]? = some ⟨1.0, 1.0, 0.0⟩ ∧
        v.col ≠ RainbowColorGenerator (F := ℚ) (((2 ^ 31 : Nat) : Int)) := by
  obtain ⟨vs, hrun, _, _, hquads⟩ :=
    generateVertices_generated sinTaylor zeroVertex (2 ^ 31 + 1) (by omega)
  obtain ⟨s, e, _, _, hv⟩ := hquads (2 ^ 31) 0 (by omega) (by omega) (by omega)
  have hcast : static_cast_int (2 ^ 31) = -2147483648 := by decide
  have hred : RainbowColorGenerator (F := ℚ) (-2147483648) = ⟨1.0, 0.0, 0.0⟩ := rfl
  have hyellow : RainbowColorGenerator (F := ℚ) (((2 ^ 31 : Nat) : Int)) = ⟨1.0, 1.0, 0.0⟩ :=
    rfl
  rw [hcast, hred] at hv
  refine ⟨by omega, by omega, vs, _, hrun, hv, rfl, hyellow, rfl, ?_⟩
  intro h
  rw [hyellow] at h
  have hy := congrArg Vector3.y h
  norm_num at hy

/-- C2. For every `N ≥ 1` the generator returns a buffer whose first four elements are the
corners `(-1,1,0)`, `(1,1,0)`, `(1,-1,0)`, `(-1,-1,0)` in this order, each coloured
`RainbowColorGenerator(0)`, which is red; for `N = 1` the buffer is exactly these four. -/
theorem generateVertices_seed {F : Type} [Add F] [Sub F] [Mul F] [Neg F] [NatCast F]
    [OfScientific F] (sinf : F → F) (fresh : Vertex F) (N : Nat) (hN : 1 ≤ N) :
    (∃ vs, generateVertices sinf fresh N = some vs ∧
        vs.take 4 =
          [ ⟨⟨-1.0, 1.0, 0.0⟩, RainbowColorGenerator 0⟩,
            ⟨⟨1.0, 1.0, 0.0⟩, RainbowColorGenerator 0⟩,
            ⟨⟨1.0, -1.0, 0.0⟩, RainbowColorGenerator 0⟩,
            ⟨⟨-1.0, -1.0, 0.0⟩, RainbowColorGenerator 0⟩ ]) ∧
      generateVertices sinf fresh 1 = some
          [ ⟨⟨-1.0, 1.0, 0.0⟩, RainbowColorGenerator 0⟩,
            ⟨⟨1.0, 1.0, 0.0⟩, RainbowColorGenerator 0⟩,
            ⟨⟨1.0, -1.0, 0.0⟩, RainbowColorGenerator 0⟩,
            ⟨⟨-1.0, -1.0, 0.0⟩, RainbowColorGenerator 0⟩ ] ∧
      RainbowColorGenerator (F := F) 0 = ⟨1.0, 0.0, 0.0⟩ := by
  refine ⟨?_, ?_, rfl⟩
  · obtain ⟨vs, hrun, hG⟩ := generateVertices_generated sinf fresh N hN
    exact ⟨vs, hrun, hG.take_four⟩
  · obtain ⟨vs, hrun, hG⟩ := generateVertices_generated sinf fresh 1 (Nat.le_refl 1)
    have htake := hG.take_four
    rw [List.take_of_length_le (by rw [hG.1])] at htake
    rw [hrun, htake]
    rfl

/-- Witness for C2: quad count 3, rational scalars. -/
theorem generateVertices_seed_witness :
    1 ≤ 3 ∧ ∃ vs, generateVertices sinTaylor zeroVertex 3 = some vs ∧
      vs.take 4 =
        [ ⟨⟨-1.0, 1.0, 0.0⟩, RainbowColorGenerator 0⟩,
          ⟨⟨1.0, 1.0, 0.0⟩, RainbowColorGenerator 0⟩,
          ⟨⟨1.0, -1.0, 0.0⟩, RainbowColorGenerator 0⟩,
          ⟨⟨-1.0, -1.0, 0.0⟩, RainbowColorGenerator 0⟩ ] :=
  ⟨by decide, (generateVertices_seed sinTaylor zeroVertex 3 (by decide)).1⟩

/-- C3. With `squareCount = 0` the generator does not return the empty sequence: the buffer
has no element and the copy of the four seed vertices into it is out of bounds.  For every
`squareCount = N + 1` the generator returns a buffer of exactly `4 * (N + 1)` elements. -/
theorem generateVertices_zero_fails {F : Type} [Add F] [Sub F] [Mul F] [Neg F] [NatCast F]
    [OfScientific F] (sinf : F → F) (fresh : Vertex F) :
    generateVertices sinf fresh 0 = none ∧
      memcpy (List.replicate (0 * vertexCount) fresh) (seedQuad (F := F)) 4 = none ∧
      ∀ N, ∃ vs, generateVertices sinf fresh (N + 1) = some vs ∧ vs.length = 4 * (N + 1) := by
  refine ⟨rfl, rfl, ?_⟩
  intro N
  obtain ⟨vs, hrun, hG⟩ := generateVertices_generated sinf fresh (N + 1) (by omega)
  exact ⟨vs, hrun, hG.1⟩

/-! ### Lerp -/

/-- C6. Boundary identities of linear interpolation in exact arithmetic (any ring of scalars,
the reals among them): `Lerp a a t = a`, `Lerp a b 0 = a` and `Lerp a b 1 = b`. -/
theorem Lerp_boundary {F : Type} [Ring F] (a b : Vector3 F) (t : F) :
    Lerp a a t = a ∧ Lerp a b 0 = a ∧ Lerp a b 1 = b := by
  refine ⟨?_, ?_, ?_⟩ <;> simp [Lerp]

/-! ### Interpolation fraction -/

/-- Over the reals the interpolation fraction lies between 0 and 1/5. -/
theorem interpolationValue_bounds (i j : Nat) :
    0 ≤ interpolationValue Real.sin i j ∧ interpolationValue Real.sin i j ≤ 1 / 5 := by
  have hlo := Real.neg_one_le_sin (0.1 * ((i : ℝ) + (j : ℝ)))
  have hhi := Real.sin_le_one (0.1 * ((i : ℝ) + (j : ℝ)))
  rw [interpolationValue_real]
  constructor
  · norm_num; linarith
  · norm_num; linarith

/-- C7. Over the reals the interpolation fraction of the generator is
`0.1 * (1 + sin (0.1 * (i + j)))` and lies in `[0, 0.2]`, for all indices `i` and `j`. -/
theorem interpolationValue_range (i j : Nat) :
    interpolationValue Real.sin i j = 0.1 * (1 + Real.sin (0.1 * ((i : ℝ) + (j : ℝ)))) ∧
      0 ≤ interpolationValue Real.sin i j ∧ interpolationValue Real.sin i j ≤ 0.2 := by
  obtain ⟨hlo, hhi⟩ := interpolationValue_bounds i j
  refine ⟨interpolationValue_real i j, hlo, ?_⟩
  have e : (0.2 : ℝ) = 1 / 5 := by norm_num
  rw [e]; exact hhi

/-! ### Nested quads -/

/-- A convex combination of two points of the seed square is a point of the seed square. -/
theorem Lerp_inSeedSquare (a b : Vector3 ℝ) (t : ℝ) (ha : InSeedSquare a)
    (hb : InSeedSquare b) (h0 : 0 ≤ t) (h1 : t ≤ 1) : InSeedSquare (Lerp a b t) := by
  obtain ⟨⟨hax0, hax1⟩, ⟨hay0, hay1⟩, haz⟩ := ha
  obtain ⟨⟨hbx0, hbx1⟩, ⟨hby0, hby1⟩, hbz⟩ := hb
  have h1t : 0 ≤ 1 - t := by linarith
  refine ⟨⟨?_, ?_⟩, ⟨?_, ?_⟩, ?_⟩
  · show -1 ≤ a.x + (b.x - a.x) * t
    nlinarith [mul_nonneg h1t (by linarith : 0 ≤ a.x + 1), mul_nonneg h0 (by linarith : 0 ≤ b.x + 1)]
  · show a.x + (b.x - a.x) * t ≤ 1
    nlinarith [mul_nonneg h1t (by linarith : 0 ≤ 1 - a.x), mul_nonneg h0 (by linarith : 0 ≤ 1 - b.x)]
  · show -1 ≤ a.y + (b.y - a.y) * t
    nlinarith [mul_nonneg h1t (by linarith : 0 ≤ a.y + 1), mul_nonneg h0 (by linarith : 0 ≤ b.y + 1)]
  · show a.y + (b.y - a.y) * t ≤ 1
    nlinarith [mul_nonneg h1t (by linarith : 0 ≤ 1 - a.y), mul_nonneg h0 (by linarith : 0 ≤ 1 - b.y)]
  · show a.z + (b.z - a.z) * t = 0
    rw [haz, hbz]; ring

/-- The corners of the seed quad are points of the seed square. -/
theorem seedQuad_inSeedSquare (j : Nat) (v : Vertex ℝ) (hv : (seedQuad (F := ℝ))[j]? = some v) :
    InSeedSquare v.pos := by
  have hlen : (seedQuad (F := ℝ)).length = 4 := rfl
  have hj : j < 4 := by
    by_contra h
    rw [List.getElem?_eq_none (by rw [hlen]; omega)] at hv
    exact Option.noConfusion hv
  have h0 : (seedQuad (F := ℝ))[0]? = some ⟨⟨-1.0, 1.0, 0.0⟩, RainbowColorGenerator 0⟩ := rfl
  have h1 : (seedQuad (F := ℝ))[1]? = some ⟨⟨1.0, 1.0, 0.0⟩, RainbowColorGenerator 0⟩ := rfl
  have h2 : (seedQuad (F := ℝ))[2]? = some ⟨⟨1.0, -1.0, 0.0⟩, RainbowColorGenerator 0⟩ := rfl
  have h3 : (seedQuad (F := ℝ))[3]? = some ⟨⟨-1.0, -1.0, 0.0⟩, RainbowColorGenerator 0⟩ := rfl
  have hcases : j = 0 ∨ j = 1 ∨ j = 2 ∨ j = 3 := by omega
  rcases hcases with h | h | h | h <;> subst h
  · rw [h0] at hv; rw [← Option.some.inj hv]; unfold InSeedSquare; norm_num
  · rw [h1] at hv; rw [← Option.some.inj hv]; unfold InSeedSquare; norm_num
  · rw [h2] at hv; rw [← Option.some.inj hv]; unfold InSeedSquare; norm_num
  · rw [h3] at hv; rw [← Option.some.inj hv]; unfold InSeedSquare; norm_num

/-- In a generated buffer every vertex of every quad is a point of the seed square. -/
theorem GeneratedUpTo.quad_inSeedSquare {N : Nat} {vs : Vertices ℝ}
    (hG : GeneratedUpTo Real.sin N N vs) :
    ∀ k, k < N → ∀ j, j < 4 → ∃ v, vs[4 * k + j]? = some v ∧ InSeedSquare v.pos := by
  obtain ⟨hlen, hseed, hquads⟩ := hG
  intro k
  induction k with
  | zero =>
    intro hN j hj
    have hlt : 4 * 0 + j < vs.length := by omega
    refine ⟨vs[4 * 0 + j], List.getElem?_eq_getElem hlt, ?_⟩
    apply seedQuad_inSeedSquare j
    rw [← hseed j hj]
    have e : 4 * 0 + j = j := by omega
    rw [← List.getElem?_eq_getElem hlt, e]
  | succ k ih =>
    intro hN j hj
    obtain ⟨s, e, hs, he, hv⟩ := hquads (k + 1) j (by omega) hN hj
    have e1 : 4 * (k + 1 - 1) + j = 4 * k + j := by omega
    have e2 : 4 * (k + 1 - 1) + (j + 1) % 4 = 4 * k + (j + 1) % 4 := by omega
    rw [e1] at hs
    rw [e2] at he
    obtain ⟨s', hs', hsq⟩ := ih (by omega) j hj
    obtain ⟨e', he', heq⟩ := ih (by omega) ((j + 1) % 4) (by omega)
    rw [hs] at hs'
    rw [he] at he'
    have hss : s = s' := Option.some.inj hs'
    have hee : e = e' := Option.some.inj he'
    subst hss
    subst hee
    obtain ⟨ht0, ht1⟩ := interpolationValue_bounds (k + 1) j
    exact ⟨_, hv, Lerp_inSeedSquare s.pos e.pos _ hsq heq ht0 (by linarith)⟩

/-- C10. Over the reals, for every `N ≥ 1` the generator returns a buffer all of whose
vertices satisfy `-1 ≤ x ≤ 1`, `-1 ≤ y ≤ 1` and `z = 0`: every quad stays inside the seed
square. -/
theorem generateVertices_in_seed_square (fresh : Vertex ℝ) (N : Nat) (hN : 1 ≤ N) :
    ∃ vs, generateVertices Real.sin fresh N = some vs ∧
      ∀ v ∈ vs, (-1 ≤ v.pos.x ∧ v.pos.x ≤ 1) ∧ (-1 ≤ v.pos.y ∧ v.pos.y ≤ 1) ∧ v.pos.z = 0 := by
  obtain ⟨vs, hrun, hG⟩ := generateVertices_generated Real.sin fresh N hN
  refine ⟨vs, hrun, ?_⟩
  intro v hv
  obtain ⟨n, hn⟩ := List.mem_iff_getElem?.mp hv
  have hlt : n < vs.length := by
    by_contra h
    rw [List.getElem?_eq_none (by omega)] at hn
    exact Option.noConfusion hn
  have hlen : vs.length = 4 * N := hG.1
  obtain ⟨w, hw, hsq⟩ := hG.quad_inSeedSquare (n / 4) (by omega) (n % 4) (by omega)
  have e : 4 * (n / 4) + n % 4 = n := by omega
  rw [e, hn] at hw
  rw [Option.some.inj hw]
  exact hsq

/-- Witness for C10: quad count 3 from a zero-filled buffer. -/
theorem generateVertices_in_seed_square_witness :
    1 ≤ 3 ∧ ∃ vs, generateVertices Real.sin ⟨⟨0, 0, 0⟩, ⟨0, 0, 0⟩⟩ 3 = some vs ∧
      ∀ v ∈ vs, (-1 ≤ v.pos.x ∧ v.pos.x ≤ 1) ∧ (-1 ≤ v.pos.y ∧ v.pos.y ≤ 1) ∧ v.pos.z = 0 :=
  ⟨by decide, generateVertices_in_seed_square ⟨⟨0, 0, 0⟩, ⟨0, 0, 0⟩⟩ 3 (by decide)⟩

/-! ### Quit key -/

/-- C8. The should-close flag under `OnKey`: from Running (`false`) it becomes Closing (`true`)
exactly on a release of Escape; any other key event leaves the flag as it was; from Closing
every event, and every sequence of events, leaves it Closing. -/
theorem OnKey_state_machine (key scancode action mods : Int) :
    (OnKey false key scancode action mods = true ↔
        (key = GLFW_KEY_ESCAPE ∧ action = GLFW_RELEASE)) ∧
      (∀ flag : Bool, ¬ (key = GLFW_KEY_ESCAPE ∧ action = GLFW_RELEASE) →
        OnKey flag key scancode action mods = flag) ∧
      OnKey true key scancode action mods = true ∧
      (∀ events : List KeyEvent, handleKeys true events = true) := by
  refine ⟨?_, ?_, ?_, ?_⟩
  · unfold OnKey; split <;> simp_all
  · intro flag h; unfold OnKey; rw [if_neg h]
  · unfold OnKey; split <;> rfl
  · intro events
    unfold handleKeys
    induction events with
    | nil => rfl
    | cons e es ih =>
      have h : OnKey true e.key e.scancode e.action e.mods = true := by
        unfold OnKey; split <;> rfl
      simp only [List.foldl_cons, h]
      exact ih

/-! ### Program linking -/

/-- The handle `CreateProgram` returns: the created one when linking succeeds, 0 when not. -/
theorem CreateProgram_handle (gl : GLDriver) (vs fs : Nat) :
    (CreateProgram gl vs fs).1
      = if gl.linkStatus gl.glCreateProgram vs fs then gl.glCreateProgram else 0 := by
  cases h : gl.linkStatus gl.glCreateProgram vs fs <;> simp [CreateProgram, h, GL_NONE]

/-- The text `CreateProgram` prints: nothing when linking succeeds, otherwise the header
followed by the info log queried for handle `GL_NONE`. -/
theorem CreateProgram_output (gl : GLDriver) (vs fs : Nat) :
    (CreateProgram gl vs fs).2
      = if gl.linkStatus gl.glCreateProgram vs fs then ""
        else "ERROR::SHADER::PROGRAM::LINKING_FAILED\n" ++ gl.glGetProgramInfoLog GL_NONE
          ++ "\n" := by
  cases h : gl.linkStatus gl.glCreateProgram vs fs <;> simp [CreateProgram, h]

/-- C9. On the driver `failingDriver` (program handle 1 fails to link, and its info log holds
the message of the linker) `CreateProgram` returns 0 but the text it prints carries the info
log of handle 0, which is empty here, not the info log of program 1. -/
theorem CreateProgram_logs_wrong_handle :
    CreateProgram failingDriver 0 0 = (0, "ERROR::SHADER::PROGRAM::LINKING_FAILED\n\n") ∧
      failingDriver.glGetProgramInfoLog failingDriver.glCreateProgram
        = "error: vertex shader missing" ∧
      (CreateProgram failingDriver 0 0).2 ≠
        "ERROR::SHADER::PROGRAM::LINKING_FAILED\n" ++
          failingDriver.glGetProgramInfoLog failingDriver.glCreateProgram ++ "\n" := by
  refine ⟨by decide, by decide, by decide⟩

end CyberFuji
